import Mathlib

/-!
Shallow embedding of the iCloud shared-album photo downloader
(`src/main.rs`).  Pure fragments of the Rust code (string parsing,
variant selection, URL/filename construction, batching, result
aggregation) are translated into executable Lean definitions; the
network is modelled as an oracle supplying each request's response, and
the bounded-concurrency download scheduler as a guarded transition
system.  Rust `HashMap`s are modelled as association lists whose order
is the (unspecified) iteration order; `HashMap::get` is `List.lookup`.
-/

deriving instance DecidableEq for Except

/-- Model of Rust `str::parse::<u32>`: an optional leading `+`, then one
or more ASCII digits, value at most `u32::MAX`; anything else is a parse
error (`none`). -/
def parseU32 (s : String) : Option Nat :=
  let cs := s.toList
  let cs := match cs with
    | '+' :: rest => rest
    | _ => cs
  if cs = [] then none
  else if cs.all Char.isDigit then
    let n := cs.foldl (fun acc c => acc * 10 + (c.toNat - 48)) 0
    if n < 4294967296 then some n else none
  else none

/-- `deserialize_helpers::deserialize_optional_u32_from_string`
(main.rs:18-31): an absent field yields `none`; a present field is
parsed as `u32`, and a parse failure becomes a deserialization error
(`serde::de::Error::custom`). -/
def deserialize_optional_u32_from_string (opt : Option String) :
    Except String (Option Nat) :=
  match opt with
  | some s =>
    match parseU32 s with
    | some n => .ok (some n)
    | none => .error ("Failed to parse " ++ s ++ " as u32")
  | none => .ok none

/-- The width/height part of serde's derived decode of one `Photo` (or
`Derivative`) record (main.rs:72-75, 85-88): the two field decoders run
in sequence and the first field-level error aborts the record's decode. -/
def decodePhotoDims (width height : Option String) :
    Except String (Option Nat × Option Nat) :=
  match deserialize_optional_u32_from_string width with
  | .error e => .error e
  | .ok w =>
    match deserialize_optional_u32_from_string height with
    | .error e => .error e
    | .ok h => .ok (w, h)

/-- Serde's decode of the `photos` array: records are decoded in order
and the first failing record aborts the whole vector (hence the whole
`WebstreamResponse`). Each record is represented by its string-encoded
width/height fields, the only fields whose decode can fail this way. -/
def decodePhotos : List (Option String × Option String) →
    Except String (List (Option Nat × Option Nat))
  | [] => .ok []
  | r :: rs =>
    match decodePhotoDims r.1 r.2 with
    | .error e => .error e
    | .ok d =>
      match decodePhotos rs with
      | .error e => .error e
      | .ok ds => .ok (d :: ds)

/-- Whether a string-encoded numeric field decodes without error
(absent, or present and parsable). -/
def fieldParses (o : Option String) : Bool :=
  match o with
  | none => true
  | some s => (parseU32 s).isSome

/-- `Derivative` (main.rs:80-91); unknown extra fields are ignored by
the decoder and carry no information, so they are omitted. -/
structure Derivative where
  file_size : Option String
  checksum : String
  width : Option Nat
  height : Option Nat
deriving DecidableEq, Repr

/-- `Photo` (main.rs:62-78).  `derivatives` is a `HashMap<String,
Derivative>`, modelled as its iteration-order association list. -/
structure Photo where
  photo_guid : String
  batch_guid : Option String
  derivatives : List (String × Derivative)
  date_created : Option String
  caption : Option String
  width : Option Nat
  height : Option Nat
deriving DecidableEq, Repr

/-- `Location` (main.rs:113-119). -/
structure Location where
  scheme : String
  hosts : List String
deriving DecidableEq, Repr

/-- `AssetUrl` (main.rs:121-131). -/
structure AssetUrl where
  url_expiry : Option String
  url_location : String
  url_path : String
deriving DecidableEq, Repr

/-- `AssetUrlsResponse` (main.rs:105-111); the two `HashMap`s are
association lists with unique keys, looked up with `List.lookup`. -/
structure AssetUrlsResponse where
  locations : List (String × Location)
  items : List (String × AssetUrl)
deriving DecidableEq, Repr

/-- `DownloadInfo` (main.rs:133-139). -/
structure DownloadInfo where
  photo_guid : String
  checksum : String
  download_url : String
  filename : String
  size_info : String
deriving DecidableEq, Repr

/-- Rust `Iterator::max_by_key` over key function `f`: `none` on the
empty sequence, otherwise the LAST element attaining the maximal key
(Rust returns the last of several equal maxima). -/
def max_by_key (f : α → Nat) : List α → Option α
  | [] => none
  | x :: xs => some (xs.foldl (fun acc y => if f acc > f y then acc else y) x)

/-- The numeric value used to compare derivative size labels
(main.rs:307): `size.parse::<u32>().unwrap_or(0)`. -/
def sizeKeyValue (k : String) : Nat := (parseU32 k).getD 0

/-- The same key function on a labelled entry. -/
def sizeKey (kv : String × α) : Nat := sizeKeyValue kv.1

/-- Variant selection (main.rs:305-307): the derivative whose label,
parsed as `u32` with unparsable labels as 0, is maximal, iterating the
map in the given order. -/
def best_derivative (l : List (String × α)) : Option (String × α) :=
  max_by_key sizeKey l

/-- Split a character list at every occurrence of `sep` (the list-level
counterpart of `String.splitOn` for a one-character separator). -/
def splitOnChar (sep : Char) : List Char → List (List Char)
  | [] => [[]]
  | c :: cs =>
    let r := splitOnChar sep cs
    if c = sep then [] :: r
    else
      match r with
      | [] => [[c]]
      | h :: t => (c :: h) :: t

/-- Model of Rust `Path::file_name` on Unix paths, applied at
main.rs:333-335: the last path component, where empty components and
`.` components are normalized away; `none` when no component remains or
the path ends in `..`. -/
def file_name (path : String) : Option String :=
  let comps := (splitOnChar '/' path.toList).filter
    (fun c => c ≠ [] ∧ c ≠ ['.'])
  match comps.getLast? with
  | none => none
  | some c => if c = ['.', '.'] then none else some (String.mk c)

/-- `name.split('?').next().unwrap_or(name)` (main.rs:338): the part of
`name` before the first `?`, i.e. its longest `?`-free initial run. -/
def stripQuery (name : String) : String :=
  String.mk (name.toList.takeWhile (fun c => c ≠ '?'))

/-- Filename derivation (main.rs:333-340): the final path component
with the query suffix stripped, else the `{photoGuid}.jpg` fallback. -/
def deriveFilename (url_path : String) (guid : String) : String :=
  match file_name url_path with
  | some name => stripQuery name
  | none => guid ++ ".jpg"

/-- The human-readable `size_info` string (main.rs:342-345). -/
def mkSizeInfo (d : Derivative) : String :=
  (match d.width with
    | some w => toString w
    | none => "?") ++ "x" ++
  (match d.height with
    | some h => toString h
    | none => "?")

/-- `process_photo_for_download` (main.rs:300-354). -/
def process_photo_for_download (photo : Photo) (resp : AssetUrlsResponse) :
    Except String (Option DownloadInfo) :=
  match best_derivative photo.derivatives with
  | none => .ok none
  | some (_size_key, derivative) =>
    match resp.items.lookup derivative.checksum with
    | none => .ok none
    | some asset_url =>
      match resp.locations.lookup asset_url.url_location with
      | none => .error ("Location not found for: " ++ asset_url.url_location)
      | some location =>
        match location.hosts.head? with
        | none => .error "No hosts found for location"
        | some host =>
          .ok (some {
            photo_guid := photo.photo_guid
            checksum := derivative.checksum
            download_url := location.scheme ++ "://" ++ host ++ asset_url.url_path
            filename := deriveFilename asset_url.url_path photo.photo_guid
            size_info := mkSizeInfo derivative })

/-- Rust `slice::chunks` (main.rs:258): consecutive chunks of at most
`n` elements, in order; the last chunk may be shorter. -/
def chunksFuel (n : Nat) : Nat → List α → List (List α)
  | _, [] => []
  | 0, _ :: _ => []
  | fuel + 1, x :: xs =>
    (x :: xs).take n :: chunksFuel n fuel ((x :: xs).drop n)

/-- Rust `slice::chunks(n)` for `n > 0`: consecutive chunks of at most
`n` elements, in order; the last chunk may be shorter.  Implemented
with `l.length` as structural fuel (each step consumes at least one
element, so the fuel is sufficient). -/
def chunksOf (n : Nat) (l : List α) : List (List α) :=
  chunksFuel n l.length l

/-- The per-batch request bodies built at main.rs:258-263: one request
per chunk of 25 photos, carrying the chunk's `photoGuid`s in order. -/
def requestsSent (photos : List Photo) : List (List String) :=
  (chunksOf 25 photos).map (fun b => b.map Photo.photo_guid)

/-- The per-batch processing loop (main.rs:287-291): each photo of the
batch is processed in order against the batch's response; a `some`
result is appended, a `none` is skipped, an error aborts. -/
def processBatch : List Photo → AssetUrlsResponse →
    Except String (List DownloadInfo)
  | [], _ => .ok []
  | p :: ps, resp =>
    match process_photo_for_download p resp with
    | .error e => .error e
    | .ok h =>
      match processBatch ps resp with
      | .error e => .error e
      | .ok rest =>
        match h with
        | some d => .ok (d :: rest)
        | none => .ok rest

/-- The batch loop of `fetch_download_urls` (main.rs:258-294), with the
network modelled by an oracle `resps` giving the response to the `i`-th
asset-URLs request. -/
def fetchGo (resps : Nat → AssetUrlsResponse) :
    List (List Photo) → Nat → Except String (List DownloadInfo)
  | [], _ => .ok []
  | b :: bs, i =>
    match processBatch b (resps i) with
    | .error e => .error e
    | .ok ts =>
      match fetchGo resps bs (i + 1) with
      | .error e => .error e
      | .ok rest => .ok (ts ++ rest)

/-- `fetch_download_urls` (main.rs:240-298): chunk the photo list into
batches of 25 and process the batches sequentially. -/
def fetch_download_urls (photos : List Photo)
    (resps : Nat → AssetUrlsResponse) : Except String (List DownloadInfo) :=
  fetchGo resps (chunksOf 25 photos) 0

/-- The per-task download results in task order, as returned by
`join_all` (main.rs:398): one boolean per `DownloadInfo`, `true` when
`download_single_photo` succeeded for it.  The network/filesystem
outcome is the oracle `outcome`. -/
def download_results (infos : List DownloadInfo)
    (outcome : DownloadInfo → Bool) : List Bool :=
  infos.map outcome

/-- `success_count` of main.rs:402-410. -/
def success_count (results : List Bool) : Nat := results.count true

/-- `failure_count` of main.rs:402-410. -/
def failure_count (results : List Bool) : Nat := results.count false

/-- The aggregate verdict of `download_photos` (main.rs:412-418):
an error carrying the failure count when any task failed, success
otherwise. -/
def download_photos (infos : List DownloadInfo)
    (outcome : DownloadInfo → Bool) : Except String Unit :=
  let f := failure_count (download_results infos outcome)
  if f > 0 then .error (toString f ++ " downloads failed") else .ok ()

/-- State of the download scheduler (main.rs:371-398): how many tasks
still wait for a semaphore permit, how many hold a permit (transfer in
flight), and how many have finished. -/
structure SchedState where
  waiting : Nat
  running : Nat
  finished : Nat
deriving DecidableEq, Repr

/-- One scheduler transition under concurrency bound `C`
(`tokio::sync::Semaphore::new(C)`, main.rs:371): `acquire` starts a
waiting task, possible only when a permit is free (`running < C`,
modelling `semaphore.acquire().await`); `release` completes a running
task, dropping its permit. -/
inductive SchedStep (C : Nat) : SchedState → SchedState → Prop
  | acquire (s : SchedState) : 0 < s.waiting → s.running < C →
      SchedStep C s ⟨s.waiting - 1, s.running + 1, s.finished⟩
  | release (s : SchedState) : 0 < s.running →
      SchedStep C s ⟨s.waiting, s.running - 1, s.finished + 1⟩

/-- Reachability from the initial state with `N` submitted tasks and no
transfer started. -/
def SchedReachable (C N : Nat) (s : SchedState) : Prop :=
  Relation.ReflTransGen (SchedStep C) ⟨N, 0, 0⟩ s

/-- The literal part of the regex `icloud\.com/sharedalbum/#([A-Za-z0-9]+)`
of main.rs:195. -/
def sharedAlbumLit : List Char := "icloud.com/sharedalbum/#".toList

/-- Whether the regex of main.rs:195 matches at offset `j` of `s`: the
literal occurs there and at least one ASCII alphanumeric follows. -/
def matchesAt (s : List Char) (j : Nat) : Bool :=
  sharedAlbumLit.isPrefixOf (s.drop j) &&
  match (s.drop j).drop sharedAlbumLit.length with
  | c :: _ => c.isAlphanum
  | [] => false

/-- Leftmost-first regex search of main.rs:195-199: scan positions left
to right; at the first position where the literal is followed by at
least one alphanumeric, capture the maximal alphanumeric run. -/
def extractHash : List Char → Option (List Char)
  | [] => none
  | c :: cs =>
    if sharedAlbumLit.isPrefixOf (c :: cs) then
      let tok := ((c :: cs).drop sharedAlbumLit.length).takeWhile Char.isAlphanum
      if tok ≠ [] then some tok else extractHash cs
    else extractHash cs

/-- `extract_hash_from_url` (main.rs:194-207). -/
def extract_hash_from_url (url : String) : Except String String :=
  match extractHash url.toList with
  | some tok => .ok (String.mk tok)
  | none => .error "Invalid iCloud shared album URL format"

/-! ## Helper lemmas -/

/-- The fold inside `max_by_key` yields the accumulator or an element. -/
theorem maxFold_mem (f : α → Nat) (xs : List α) (acc : α) :
    xs.foldl (fun a y => if f a > f y then a else y) acc = acc ∨
    xs.foldl (fun a y => if f a > f y then a else y) acc ∈ xs := by
  induction xs generalizing acc with
  | nil => exact Or.inl rfl
  | cons x xs ih =>
    simp only [List.foldl_cons]
    rcases ih (if f acc > f x then acc else x) with h | h
    · rw [h]
      by_cases hc : f acc > f x
      · rw [if_pos hc]; exact Or.inl rfl
      · rw [if_neg hc]; exact Or.inr (List.mem_cons_self x xs)
    · exact Or.inr (List.mem_cons_of_mem _ h)

/-- The fold inside `max_by_key` dominates the accumulator and every
element. -/
theorem maxFold_ge (f : α → Nat) (xs : List α) (acc : α) :
    f acc ≤ f (xs.foldl (fun a y => if f a > f y then a else y) acc) ∧
    ∀ y ∈ xs, f y ≤ f (xs.foldl (fun a y => if f a > f y then a else y) acc) := by
  induction xs generalizing acc with
  | nil => exact ⟨le_refl _, by simp⟩
  | cons x xs ih =>
    simp only [List.foldl_cons]
    obtain ⟨h1, h2⟩ := ih (if f acc > f x then acc else x)
    have hstep : f acc ≤ f (if f acc > f x then acc else x) ∧
        f x ≤ f (if f acc > f x then acc else x) := by
      by_cases hc : f acc > f x
      · rw [if_pos hc]; omega
      · rw [if_neg hc]; omega
    refine ⟨le_trans hstep.1 h1, ?_⟩
    intro y hy
    rcases List.mem_cons.mp hy with rfl | hy
    · exact le_trans hstep.2 h1
    · exact h2 y hy

/-- `max_by_key` on a non-empty list returns an element whose key is
maximal among all elements. -/
theorem max_by_key_spec (f : α → Nat) (l : List α) (h : l ≠ []) :
    ∃ b, max_by_key f l = some b ∧ b ∈ l ∧ ∀ x ∈ l, f x ≤ f b := by
  match l with
  | [] => exact absurd rfl h
  | x :: xs =>
    refine ⟨_, rfl, ?_, ?_⟩
    · rcases maxFold_mem f xs x with h1 | h1
      · rw [h1]; exact List.mem_cons_self x xs
      · exact List.mem_cons_of_mem _ h1
    · intro y hy
      obtain ⟨h1, h2⟩ := maxFold_ge f xs x
      rcases List.mem_cons.mp hy with rfl | hy
      · exact h1
      · exact h2 y hy

/-! ## Claims about the Variant Selector (C2, C3) -/

/-- C3: for every non-empty variant mapping, the selector returns a
variant of the mapping whose key, parsed as an unsigned integer with
unparsable keys treated as 0, is numerically maximal; the mapping
`100/2000/500` yields the `2000` variant, `abc` alone yields itself;
for the empty mapping it returns no variant and
`process_photo_for_download` skips the photo without error
(`Ok(None)`). -/
theorem C3_variant_selector :
    (∀ (l : List (String × String)), l ≠ [] →
      ∃ kv, best_derivative l = some kv ∧ kv ∈ l ∧
        ∀ x ∈ l, sizeKey x ≤ sizeKey kv)
    ∧ best_derivative ([] : List (String × String)) = none
    ∧ best_derivative [("100", "A"), ("2000", "B"), ("500", "C")] = some ("2000", "B")
    ∧ best_derivative [("abc", "A")] = some ("abc", "A")
    ∧ ∀ (photo : Photo) (resp : AssetUrlsResponse), photo.derivatives = [] →
        process_photo_for_download photo resp = .ok none := by
  refine ⟨fun l h => max_by_key_spec sizeKey l h, rfl, by decide, by decide, ?_⟩
  intro photo resp hd
  unfold process_photo_for_download
  rw [hd]
  rfl

/-- Witness for C3 at concrete inputs. -/
theorem C3_variant_selector_witness :
    (∃ kv, best_derivative [("abc", "A")] = some kv ∧
        kv ∈ [("abc", "A")] ∧ ∀ x ∈ [("abc", "A")], sizeKey x ≤ sizeKey kv) ∧
    process_photo_for_download
      { photo_guid := "g", batch_guid := none, derivatives := [],
        date_created := none, caption := none, width := none, height := none }
      { locations := [], items := [] } = .ok none :=
  ⟨C3_variant_selector.1 _ (by decide), C3_variant_selector.2.2.2.2 _ _ rfl⟩

/-- C2 counterexample: the two association lists below are two
iteration orders (a permutation) of the same two-entry variant mapping,
whose keys `01` and `1` both parse to the maximal value 1, yet
selection picks different variants on them — so selection is NOT
deterministic for a given mapping when the maximum is tied and the
unordered container's iteration order varies between runs. -/
theorem C2_tie_break_counterexample :
    [("01", "A"), ("1", "B")].Perm [("1", "B"), ("01", "A")] ∧
    best_derivative [("01", "A"), ("1", "B")] ≠
      best_derivative [("1", "B"), ("01", "A")] :=
  ⟨List.Perm.swap _ _ _, by decide⟩

/-- C2 amended: selection is a deterministic function of the mapping's
iteration order, and is independent of the iteration order (hence
deterministic across runs) whenever at most one entry attains the
maximal numeric key; with tied maxima, different iteration orders of
the same mapping may select different variants. -/
theorem C2_deterministic_when_unique_max :
    ∀ (l1 l2 : List (String × String)), l1.Perm l2 →
    (∀ x ∈ l1, ∀ y ∈ l1,
        (∀ z ∈ l1, sizeKey z ≤ sizeKey x) →
        (∀ z ∈ l1, sizeKey z ≤ sizeKey y) → x = y) →
    best_derivative l1 = best_derivative l2 := by
  intro l1 l2 hperm huniq
  rcases eq_or_ne l1 [] with rfl | h1
  · rw [hperm.symm.eq_nil]
  · have h2 : l2 ≠ [] := by
      intro h
      exact h1 (by simpa [h] using hperm)
    obtain ⟨b1, hb1, hb1m, hb1max⟩ := max_by_key_spec sizeKey l1 h1
    obtain ⟨b2, hb2, hb2m, hb2max⟩ := max_by_key_spec sizeKey l2 h2
    have hb2m' : b2 ∈ l1 := hperm.mem_iff.mpr hb2m
    have hb2max' : ∀ z ∈ l1, sizeKey z ≤ sizeKey b2 := fun z hz =>
      hb2max z (hperm.mem_iff.mp hz)
    have heq : b1 = b2 := huniq b1 hb1m b2 hb2m' hb1max hb2max'
    rw [show best_derivative l1 = some b1 from hb1,
        show best_derivative l2 = some b2 from hb2, heq]

/-- Witness for the amended C2 at a concrete mapping with a unique
maximal key, in two iteration orders. -/
theorem C2_deterministic_when_unique_max_witness :
    best_derivative [("100", "A"), ("2000", "B")] =
      best_derivative [("2000", "B"), ("100", "A")] :=
  C2_deterministic_when_unique_max _ _ (List.Perm.swap _ _ _) (by decide)

/-! ## Claims about numeric-field decoding (C1) -/

/-- A field deserializer succeeds exactly when the field is absent or
parsable. -/
theorem deserialize_isOk (o : Option String) :
    (deserialize_optional_u32_from_string o).isOk = fieldParses o := by
  cases o with
  | none => rfl
  | some s =>
    cases hp : parseU32 s <;>
      simp [deserialize_optional_u32_from_string, fieldParses, hp, Except.isOk,
        Except.toBool]

/-- A record's width/height decode succeeds exactly when both fields
decode. -/
theorem decodePhotoDims_isOk (w h : Option String) :
    (decodePhotoDims w h).isOk = (fieldParses w && fieldParses h) := by
  rw [← deserialize_isOk w, ← deserialize_isOk h]
  unfold decodePhotoDims
  cases hw : deserialize_optional_u32_from_string w with
  | error e => rfl
  | ok wv =>
    cases hh : deserialize_optional_u32_from_string h with
    | error e => rfl
    | ok hv => rfl

/-- C1 counterexample: a malformed string-encoded width field (`"abc"`)
is NOT treated as absent or zero — the field deserializer errors, the
record decode fails, and one malformed field aborts the decode of the
whole photo list (hence the whole metadata/batch response). -/
theorem C1_malformed_field_aborts_decode :
    (deserialize_optional_u32_from_string (some "abc")).isOk = false ∧
    (decodePhotoDims (some "abc") none).isOk = false ∧
    (decodePhotos [(some "100", some "200"), (some "abc", none)]).isOk = false := by
  decide

/-- C1 amended: decoding the photo list succeeds exactly when every
present string-encoded width/height field parses as an unsigned
integer; a present unparsable field always aborts the whole decode
(only ABSENT fields are tolerated, and there is no zero fallback). -/
theorem C1_decode_ok_iff_fields_parse :
    ∀ (records : List (Option String × Option String)),
      (decodePhotos records).isOk =
        records.all (fun r => fieldParses r.1 && fieldParses r.2) := by
  intro records
  induction records with
  | nil => rfl
  | cons r rs ih =>
    rw [List.all_cons, ← decodePhotoDims_isOk, ← ih]
    show (match decodePhotoDims r.1 r.2 with
      | .error e => .error e
      | .ok d =>
        match decodePhotos rs with
        | .error e => .error e
        | .ok ds => .ok (d :: ds) : Except String _).isOk = _
    cases hd : decodePhotoDims r.1 r.2 with
    | error e => rfl
    | ok d =>
      cases hr : decodePhotos rs with
      | error e => rfl
      | ok ds => rfl

/-! ## Claims about filename derivation (C7, C9) -/

/-- C7: the derived destination filename is the final path segment of
the resolved path with any query-string suffix (content after the first
`?`) stripped — `/a/b/IMG_0001.JPG?o=abc` yields `IMG_0001.JPG` — and
when no filename segment can be derived from the path, the filename
falls back to `{photoGuid}.jpg`. -/
theorem C7_filename_derivation :
    (∀ g, deriveFilename "/a/b/IMG_0001.JPG?o=abc" g = "IMG_0001.JPG")
    ∧ (∀ p n g, file_name p = some n →
        ∃ rest, n.toList = (deriveFilename p g).toList ++ rest ∧
          '?' ∉ (deriveFilename p g).toList ∧
          (rest ≠ [] → rest.head? = some '?'))
    ∧ (∀ p g, file_name p = none → deriveFilename p g = g ++ ".jpg") := by
  refine ⟨fun g => rfl, ?_, ?_⟩
  · intro p n g h
    have hres : (deriveFilename p g).toList =
        n.toList.takeWhile (fun c => decide (c ≠ '?')) := by
      unfold deriveFilename
      rw [h]
      rfl
    refine ⟨n.toList.dropWhile (fun c => decide (c ≠ '?')), ?_, ?_, ?_⟩
    · rw [hres, List.takeWhile_append_dropWhile]
    · rw [hres]
      intro hmem
      have := List.mem_takeWhile_imp hmem
      simp at this
    · intro hne
      have hhead := List.head_dropWhile_not
        (fun c => decide (c ≠ '?')) n.toList hne
      simp only [decide_eq_false_iff_not, not_not] at hhead
      rw [List.head?_eq_head hne, hhead]
  · intro p g h
    unfold deriveFilename
    rw [h]

/-- Witness for C7 at the spec's concrete path and at a path with no
filename segment. -/
theorem C7_filename_derivation_witness :
    (∃ rest, ("IMG_0001.JPG?o=abc" : String).toList =
        (deriveFilename "/a/b/IMG_0001.JPG?o=abc" "g").toList ++ rest ∧
        '?' ∉ (deriveFilename "/a/b/IMG_0001.JPG?o=abc" "g").toList ∧
        (rest ≠ [] → rest.head? = some '?')) ∧
    deriveFilename "/" "gid" = "gid" ++ ".jpg" :=
  ⟨C7_filename_derivation.2.1 "/a/b/IMG_0001.JPG?o=abc" "IMG_0001.JPG?o=abc" "g"
      (by decide),
   C7_filename_derivation.2.2 "/" "gid" (by decide)⟩

/-- C9: a path whose final segment begins with `?` (such as
`/a/b/?o=abc`) derives the EMPTY filename, not the `{photoGuid}.jpg`
fallback; the fallback applies only when the path yields no final
component at all (the result is then independent of the segment, and
the guid matters only in the no-component case, e.g. empty path or bare
`/`). -/
theorem C9_query_only_segment_gives_empty_filename :
    (∀ g, deriveFilename "/a/b/?o=abc" g = "")
    ∧ (∀ p g g2, (file_name p).isSome → deriveFilename p g = deriveFilename p g2)
    ∧ (∀ g, deriveFilename "" g = g ++ ".jpg")
    ∧ (∀ g, deriveFilename "/" g = g ++ ".jpg") := by
  refine ⟨fun g => rfl, ?_, fun g => rfl, fun g => rfl⟩
  intro p g g2 hs
  unfold deriveFilename
  cases hn : file_name p with
  | none => rw [hn] at hs; cases hs
  | some n => rfl

/-- Witness for C9: with a derivable segment the guid is irrelevant. -/
theorem C9_query_only_segment_witness :
    deriveFilename "/a/b/?o=abc" "g1" = deriveFilename "/a/b/?o=abc" "g2" :=
  C9_query_only_segment_gives_empty_filename.2.1 "/a/b/?o=abc" "g1" "g2"
    (by decide)

/-! ## Claim about asset resolution outcomes (C4) -/

/-- A successfully produced `DownloadInfo` carries its photo's guid. -/
theorem process_ok_some_guid (photo : Photo) (resp : AssetUrlsResponse)
    (d : DownloadInfo) :
    process_photo_for_download photo resp = .ok (some d) →
    d.photo_guid = photo.photo_guid := by
  intro h
  unfold process_photo_for_download at h
  cases hb : best_derivative photo.derivatives with
  | none => simp only [hb] at h; simp at h
  | some kv =>
    obtain ⟨k, der⟩ := kv
    simp only [hb] at h
    cases hi : resp.items.lookup der.checksum with
    | none => simp only [hi] at h; simp at h
    | some a =>
      simp only [hi] at h
      cases hl : resp.locations.lookup a.url_location with
      | none => simp only [hl] at h; simp at h
      | some loc =>
        simp only [hl] at h
        cases hh : loc.hosts.head? with
        | none => simp only [hh] at h; simp at h
        | some host =>
          simp only [hh, Except.ok.injEq, Option.some.injEq] at h
          rw [← h]

/-- A photo whose processing errors makes its whole batch error. -/
theorem processBatch_error_of_mem (r : AssetUrlsResponse) (photo : Photo)
    (e : String) (b : List Photo) :
    photo ∈ b → process_photo_for_download photo r = .error e →
    (processBatch b r).isOk = false := by
  induction b with
  | nil => intro hmem _; cases hmem
  | cons p ps ih =>
    intro hmem hproc
    show (match process_photo_for_download p r with
      | .error e2 => (.error e2 : Except String (List DownloadInfo))
      | .ok h =>
        match processBatch ps r with
        | .error e2 => .error e2
        | .ok rest =>
          match h with
          | some d => .ok (d :: rest)
          | none => .ok rest).isOk = false
    rcases List.mem_cons.mp hmem with rfl | hmem2
    · rw [hproc]
      rfl
    · cases hp : process_photo_for_download p r with
      | error e2 => rfl
      | ok h =>
        have hps := ih hmem2 hproc
        cases hb2 : processBatch ps r with
        | error e2 => rfl
        | ok rest => rw [hb2] at hps; simp [Except.isOk, Except.toBool] at hps

/-- The batch loop succeeds on a cons exactly when the head batch and
the remaining loop both succeed. -/
theorem fetchGo_cons_isOk (resps : Nat → AssetUrlsResponse) (b : List Photo)
    (bs : List (List Photo)) (i : Nat) :
    (fetchGo resps (b :: bs) i).isOk =
      ((processBatch b (resps i)).isOk && (fetchGo resps bs (i + 1)).isOk) := by
  show (match processBatch b (resps i) with
    | .error e => (.error e : Except String (List DownloadInfo))
    | .ok ts =>
      match fetchGo resps bs (i + 1) with
      | .error e => .error e
      | .ok rest => .ok (ts ++ rest)).isOk = _
  cases hb : processBatch b (resps i) with
  | error e => rfl
  | ok ts =>
    cases hr : fetchGo resps bs (i + 1) with
    | error e => rfl
    | ok rest => rfl

/-- One failing batch makes the whole batch loop fail. -/
theorem fetchGo_bad_batch (resps : Nat → AssetUrlsResponse) :
    ∀ (bs : List (List Photo)) (i j : Nat) (hj : j < bs.length),
    (processBatch (bs.get ⟨j, hj⟩) (resps (i + j))).isOk = false →
    (fetchGo resps bs i).isOk = false := by
  intro bs
  induction bs with
  | nil => intro i j hj; exact absurd hj (Nat.not_lt_zero j)
  | cons b bs ih =>
    intro i j hj hbad
    rw [fetchGo_cons_isOk]
    cases j with
    | zero =>
      rw [Nat.add_zero] at hbad
      rw [show (b :: bs).get ⟨0, hj⟩ = b from rfl] at hbad
      rw [hbad, Bool.false_and]
    | succ j2 =>
      have harith : i + (j2 + 1) = (i + 1) + j2 := by omega
      rw [harith] at hbad
      have h2 := ih (i + 1) j2 (Nat.lt_of_succ_lt_succ hj) hbad
      rw [h2, Bool.and_false]

/-- C4: when the selected variant's checksum is absent from the batch's
`items` mapping, the photo is skipped silently (`Ok(None)`, no task, no
error); when the checksum is present but its location reference is
missing from `locations`, or the referenced location's host list is
empty, processing returns the fatal asset-resolution error, and any such
error anywhere in any batch makes the whole URL-fetching run fail. -/
theorem C4_skip_vs_fatal :
    (∀ (photo : Photo) (resp : AssetUrlsResponse) (k : String) (d : Derivative),
      best_derivative photo.derivatives = some (k, d) →
      ((resp.items.lookup d.checksum = none →
          process_photo_for_download photo resp = .ok none)
       ∧ (∀ a, resp.items.lookup d.checksum = some a →
           ((resp.locations.lookup a.url_location = none →
               process_photo_for_download photo resp =
                 .error ("Location not found for: " ++ a.url_location))
            ∧ (∀ loc, resp.locations.lookup a.url_location = some loc →
                loc.hosts = [] →
                process_photo_for_download photo resp =
                  .error "No hosts found for location")))))
    ∧ (∀ (b : List Photo) (r : AssetUrlsResponse) (photo : Photo) (e : String),
        photo ∈ b → process_photo_for_download photo r = .error e →
        (processBatch b r).isOk = false)
    ∧ (∀ (photos : List Photo) (resps : Nat → AssetUrlsResponse) (j : Nat)
        (hj : j < (chunksOf 25 photos).length),
        (processBatch ((chunksOf 25 photos).get ⟨j, hj⟩) (resps j)).isOk = false →
        (fetch_download_urls photos resps).isOk = false) := by
  refine ⟨?_, ?_, ?_⟩
  · intro photo resp k d hb
    refine ⟨?_, ?_⟩
    · intro hi
      unfold process_photo_for_download
      simp only [hb, hi]
    · intro a ha
      refine ⟨?_, ?_⟩
      · intro hl
        unfold process_photo_for_download
        simp only [hb, ha, hl]
      · intro loc hl hh
        unfold process_photo_for_download
        simp only [hb, ha, hl, hh, List.head?_nil]
  · exact fun b r photo e hm hp => processBatch_error_of_mem r photo e b hm hp
  · intro photos resps j hj hbad
    unfold fetch_download_urls
    have hbad2 : (processBatch ((chunksOf 25 photos).get ⟨j, hj⟩)
        (resps (0 + j))).isOk = false := by
      rw [Nat.zero_add]; exact hbad
    exact fetchGo_bad_batch resps (chunksOf 25 photos) 0 j hj hbad2

/-- Witness for C4: a missing checksum is skipped silently, and a
present checksum with a missing location reference fails the whole
URL-fetching run. -/
theorem C4_skip_vs_fatal_witness :
    process_photo_for_download
      ⟨"g", none, [("100", ⟨none, "ck", none, none⟩)], none, none, none, none⟩
      ⟨[], []⟩ = .ok none ∧
    (fetch_download_urls
      [⟨"g", none, [("100", ⟨none, "ck", none, none⟩)], none, none, none, none⟩]
      (fun _ => ⟨[], [("ck", ⟨none, "L1", "/x.jpg"⟩)]⟩)).isOk = false :=
  ⟨(C4_skip_vs_fatal.1 _ _ "100" ⟨none, "ck", none, none⟩ (by decide)).1 (by decide),
   C4_skip_vs_fatal.2.2 _ _ 0 (by decide) (by decide)⟩

/-! ## Claim about batching and ordering (C5) -/

/-- The chunk fuel is irrelevant once it covers the list length. -/
theorem chunksFuel_congr (n : Nat) (hn : 0 < n) :
    ∀ (fuel fuel2 : Nat) (l : List α), l.length ≤ fuel → l.length ≤ fuel2 →
    chunksFuel n fuel l = chunksFuel n fuel2 l := by
  intro fuel
  induction fuel with
  | zero =>
    intro fuel2 l hl hl2
    have hnil : l = [] := List.eq_nil_of_length_eq_zero (Nat.le_zero.mp hl)
    subst hnil
    cases fuel2 <;> rfl
  | succ f ih =>
    intro fuel2 l hl hl2
    cases l with
    | nil => cases fuel2 <;> rfl
    | cons x xs =>
      cases fuel2 with
      | zero => simp at hl2
      | succ f2 =>
        show (x :: xs).take n :: chunksFuel n f ((x :: xs).drop n) =
          (x :: xs).take n :: chunksFuel n f2 ((x :: xs).drop n)
        congr 1
        apply ih
        · simp only [List.length_drop, List.length_cons]
          simp only [List.length_cons] at hl
          omega
        · simp only [List.length_drop, List.length_cons]
          simp only [List.length_cons] at hl2
          omega

/-- Unfolding equation of `chunksOf` on a non-empty list. -/
theorem chunksOf_cons (n : Nat) (hn : 0 < n) (x : α) (xs : List α) :
    chunksOf n (x :: xs) =
      (x :: xs).take n :: chunksOf n ((x :: xs).drop n) := by
  show chunksFuel n (x :: xs).length (x :: xs) = _
  have h1 : chunksFuel n (x :: xs).length (x :: xs) =
      (x :: xs).take n :: chunksFuel n xs.length ((x :: xs).drop n) := rfl
  rw [h1]
  congr 1
  apply chunksFuel_congr n hn
  · simp only [List.length_drop, List.length_cons]
    omega
  · exact le_refl _

/-- There are exactly `ceil(length / n)` chunks. -/
theorem chunksOf_length (n : Nat) (hn : 0 < n) (l : List α) :
    (chunksOf n l).length = (l.length + (n - 1)) / n := by
  suffices h : ∀ (k : Nat) (l : List α), l.length = k →
      (chunksOf n l).length = (l.length + (n - 1)) / n from h l.length l rfl
  intro k
  induction k using Nat.strong_induction_on with
  | _ k ih =>
  intro l hk
  cases l with
  | nil =>
    simp only [List.length_nil]
    rw [show chunksOf n ([] : List α) = [] from rfl]
    simp only [List.length_nil]
    rw [Nat.div_eq_of_lt (by omega)]
  | cons x xs =>
    subst hk
    rw [chunksOf_cons n hn]
    simp only [List.length_cons]
    have hdl : ((x :: xs).drop n).length = xs.length + 1 - n := by
      simp only [List.length_drop, List.length_cons]
    have hrec := ih ((x :: xs).drop n).length
      (by rw [hdl]; simp only [List.length_cons]; omega)
      ((x :: xs).drop n) rfl
    rw [hrec, hdl]
    rcases Nat.le_total (xs.length + 1) n with hLn | hLn
    · have e1 : xs.length + 1 - n + (n - 1) = n - 1 := by omega
      rw [e1, Nat.div_eq_of_lt (by omega)]
      have e2 : (xs.length + 1 + (n - 1)) / n = 1 := by
        apply Nat.div_eq_of_lt_le
        · omega
        · omega
      rw [e2]
    · have e1 : xs.length + 1 - n + (n - 1) = xs.length + 1 - 1 := by omega
      have e2 : xs.length + 1 + (n - 1) = (xs.length + 1 - 1) + n := by omega
      rw [e1, e2, Nat.add_div_right _ hn]

/-- Chunk `i` holds exactly the elements at positions `[n*i, n*i+n)`. -/
theorem chunksOf_getElem (n : Nat) (hn : 0 < n) (l : List α) :
    ∀ i : Nat, (chunksOf n l)[i]? =
      if n * i < l.length then some ((l.drop (n * i)).take n) else none := by
  suffices h : ∀ (k : Nat) (l : List α), l.length = k → ∀ i : Nat,
      (chunksOf n l)[i]? =
        if n * i < l.length then some ((l.drop (n * i)).take n) else none from
    h l.length l rfl
  intro k
  induction k using Nat.strong_induction_on with
  | _ k ih =>
  intro l hk
  cases l with
  | nil =>
    intro i
    rw [show chunksOf n ([] : List α) = [] from rfl]
    simp
  | cons x xs =>
    subst hk
    intro i
    rw [chunksOf_cons n hn]
    cases i with
    | zero =>
      rw [List.getElem?_cons_zero, Nat.mul_zero, List.drop_zero]
      rw [if_pos (by simp)]
    | succ j =>
      rw [List.getElem?_cons_succ]
      have hdl : ((x :: xs).drop n).length = xs.length + 1 - n := by
        simp only [List.length_drop, List.length_cons]
      rw [ih ((x :: xs).drop n).length
        (by rw [hdl]; simp only [List.length_cons]; omega)
        ((x :: xs).drop n) rfl j]
      rw [List.drop_drop, hdl]
      simp only [List.length_cons]
      have hms : n * (j + 1) = n * j + n := Nat.mul_succ n j
      by_cases hlt : n * (j + 1) < xs.length + 1
      · have hlt2 : n * j + n < xs.length + 1 := by rw [← hms]; exact hlt
        rw [if_pos (by omega : n * j < xs.length + 1 - n), if_pos hlt]
        have e : n + n * j = n * (j + 1) := by rw [hms]; omega
        rw [e]
      · have hlt2 : ¬ n * j + n < xs.length + 1 := by rw [← hms]; exact hlt
        rw [if_neg (by omega : ¬ n * j < xs.length + 1 - n), if_neg hlt]

/-- Concatenating the chunks gives back the original list. -/
theorem chunksOf_flatten (n : Nat) (hn : 0 < n) (l : List α) :
    (chunksOf n l).flatten = l := by
  suffices h : ∀ (k : Nat) (l : List α), l.length = k →
      (chunksOf n l).flatten = l from h l.length l rfl
  intro k
  induction k using Nat.strong_induction_on with
  | _ k ih =>
  intro l hk
  cases l with
  | nil => rfl
  | cons x xs =>
    subst hk
    rw [chunksOf_cons n hn, List.flatten_cons]
    have hdl : ((x :: xs).drop n).length = xs.length + 1 - n := by
      simp only [List.length_drop, List.length_cons]
    rw [ih ((x :: xs).drop n).length
      (by rw [hdl]; simp only [List.length_cons]; omega)
      ((x :: xs).drop n) rfl]
    exact List.take_append_drop n (x :: xs)

/-- The tasks produced by one batch keep the batch's photo order. -/
theorem processBatch_guid_sublist (b : List Photo) (r : AssetUrlsResponse) :
    ∀ ts, processBatch b r = .ok ts →
    (ts.map DownloadInfo.photo_guid).Sublist (b.map Photo.photo_guid) := by
  induction b with
  | nil =>
    intro ts h
    injection h with h2
    subst h2
    exact List.Sublist.refl _
  | cons p ps ih =>
    intro ts
    show (match process_photo_for_download p r with
      | .error e => (.error e : Except String (List DownloadInfo))
      | .ok h =>
        match processBatch ps r with
        | .error e => .error e
        | .ok rest =>
          match h with
          | some d => .ok (d :: rest)
          | none => .ok rest) = .ok ts → _
    cases hp : process_photo_for_download p r with
    | error e => intro h; cases h
    | ok o =>
      cases hb : processBatch ps r with
      | error e => intro h; cases h
      | ok rest =>
        cases o with
        | none =>
          intro h
          injection h with h2
          subst h2
          exact List.Sublist.cons _ (ih rest hb)
        | some d =>
          intro h
          injection h with h2
          subst h2
          simp only [List.map_cons]
          rw [process_ok_some_guid p r d hp]
          exact List.Sublist.cons₂ _ (ih rest hb)

/-- The tasks produced by the batch loop keep the overall photo order. -/
theorem fetchGo_guid_sublist (resps : Nat → AssetUrlsResponse) :
    ∀ (bs : List (List Photo)) (i : Nat) (ts : List DownloadInfo),
    fetchGo resps bs i = .ok ts →
    (ts.map DownloadInfo.photo_guid).Sublist (bs.flatten.map Photo.photo_guid) := by
  intro bs
  induction bs with
  | nil =>
    intro i ts h
    injection h with h2
    subst h2
    exact List.Sublist.refl _
  | cons b bs ih =>
    intro i ts
    show (match processBatch b (resps i) with
      | .error e => (.error e : Except String (List DownloadInfo))
      | .ok ts1 =>
        match fetchGo resps bs (i + 1) with
        | .error e => .error e
        | .ok rest => .ok (ts1 ++ rest)) = .ok ts → _
    cases hb : processBatch b (resps i) with
    | error e => intro h; cases h
    | ok ts1 =>
      cases hf : fetchGo resps bs (i + 1) with
      | error e => intro h; cases h
      | ok rest =>
        intro h
        injection h with h2
        subst h2
        rw [List.flatten_cons, List.map_append, List.map_append]
        exact List.Sublist.append (processBatch_guid_sublist b (resps i) ts1 hb)
          (ih (i + 1) rest hf)

/-- C5: the URL resolver issues exactly `ceil(N/25)` batch requests for
`N` photos, request `i` carrying exactly the `photoGuid`s at manifest
positions `[25*i, 25*i+25)` in order (and no request exists beyond
them), and the resulting task sequence preserves album order within and
across batches (its guid sequence is a sublist of the manifest's guid
sequence). -/
theorem C5_batching :
    ∀ (photos : List Photo) (resps : Nat → AssetUrlsResponse),
      (requestsSent photos).length = (photos.length + 24) / 25
      ∧ (∀ i : Nat, (requestsSent photos)[i]? =
          if 25 * i < photos.length then
            some (((photos.drop (25 * i)).take 25).map Photo.photo_guid)
          else none)
      ∧ (∀ ts, fetch_download_urls photos resps = .ok ts →
          (ts.map DownloadInfo.photo_guid).Sublist (photos.map Photo.photo_guid)) := by
  intro photos resps
  refine ⟨?_, ?_, ?_⟩
  · unfold requestsSent
    rw [List.length_map]
    have h := chunksOf_length 25 (by omega) photos
    rw [show (25 : Nat) - 1 = 24 from rfl] at h
    exact h
  · intro i
    unfold requestsSent
    rw [List.getElem?_map, chunksOf_getElem 25 (by omega) photos i]
    by_cases h : 25 * i < photos.length
    · rw [if_pos h, if_pos h]
      rfl
    · rw [if_neg h, if_neg h]
      rfl
  · intro ts h
    have hs := fetchGo_guid_sublist resps (chunksOf 25 photos) 0 ts h
    rwa [chunksOf_flatten 25 (by omega) photos] at hs

/-- Witness for C5 on a 26-photo manifest: two requests are sent and
the (empty) task list of a derivative-less album preserves order. -/
theorem C5_batching_witness :
    (requestsSent (List.replicate 26
      (⟨"g", none, [], none, none, none, none⟩ : Photo))).length = (26 + 24) / 25
    ∧ (([] : List DownloadInfo).map DownloadInfo.photo_guid).Sublist
        ((List.replicate 26
          (⟨"g", none, [], none, none, none, none⟩ : Photo)).map Photo.photo_guid) := by
  have h := C5_batching
    (List.replicate 26 ⟨"g", none, [], none, none, none, none⟩)
    (fun _ => ⟨[], []⟩)
  exact ⟨h.1, h.2.2 [] (by decide)⟩

/-! ## Claim about download aggregation (C6) -/

/-- Every boolean outcome is counted once as success or failure. -/
theorem count_true_add_count_false (rs : List Bool) :
    rs.count true + rs.count false = rs.length := by
  induction rs with
  | nil => rfl
  | cons b bs ih =>
    cases b <;> simp [List.count_cons] <;> omega

/-- C6: after all download tasks complete, the success count plus the
failure count equals the number of tasks, and both counts are the same
for any completion order (any permutation of the per-task results);
when the failure count is positive `download_photos` reports the error
carrying that count, otherwise it returns success. -/
theorem C6_aggregate_counts :
    ∀ (infos : List DownloadInfo) (outcome : DownloadInfo → Bool)
      (completed : List Bool),
      completed.Perm (download_results infos outcome) →
      success_count completed + failure_count completed = infos.length
      ∧ success_count completed = success_count (download_results infos outcome)
      ∧ failure_count completed = failure_count (download_results infos outcome)
      ∧ (0 < failure_count completed →
          download_photos infos outcome =
            .error (toString (failure_count completed) ++ " downloads failed"))
      ∧ (failure_count completed = 0 → download_photos infos outcome = .ok ()) := by
  intro infos outcome completed hperm
  have hs : success_count completed =
      success_count (download_results infos outcome) := hperm.count_eq true
  have hf : failure_count completed =
      failure_count (download_results infos outcome) := hperm.count_eq false
  refine ⟨?_, hs, hf, ?_, ?_⟩
  · have htot := count_true_add_count_false completed
    rw [hperm.length_eq] at htot
    unfold download_results at htot
    rw [List.length_map] at htot
    exact htot
  · intro hpos
    unfold download_photos
    rw [← hf]
    rw [if_pos hpos]
  · intro hzero
    unfold download_photos
    rw [← hf]
    rw [if_neg (by omega)]

/-- Witness for C6 at one task whose transfer fails. -/
theorem C6_aggregate_counts_witness :
    success_count [false] + failure_count [false] = 1 ∧
    download_photos [⟨"g", "c", "u", "f", "s"⟩] (fun _ => false) =
      .error ("1" ++ " downloads failed") := by
  have h := C6_aggregate_counts [⟨"g", "c", "u", "f", "s"⟩] (fun _ => false)
    [false] (List.Perm.refl _)
  exact ⟨h.1, h.2.2.2.1 (by decide)⟩

/-! ## Claim about the concurrency bound (C8) -/

/-- C8: under concurrency bound `C ≥ 1`, every state the download
scheduler can reach from `N` submitted tasks has at most `C` transfers
in flight, and a task can start (a transition that consumes a waiting
task) only when a permit is free (`running < C`) — tasks beyond the
limit wait. -/
theorem C8_bounded_concurrency :
    ∀ (C N : Nat), 1 ≤ C →
      (∀ s, SchedReachable C N s → s.running ≤ C)
      ∧ (∀ s s2, SchedStep C s s2 → s2.waiting < s.waiting → s.running < C) := by
  intro C N hC
  constructor
  · intro s hreach
    induction hreach with
    | refl => exact Nat.zero_le C
    | tail h step ih =>
      cases step with
      | acquire hw hr => exact hr
      | release hr => exact le_trans (Nat.sub_le _ _) ih
  · intro s s2 step hw
    cases step with
    | acquire h1 h2 => exact h2
    | release h1 => exact absurd hw (lt_irrefl _)

/-- Witness for C8: with bound 1 and two tasks, the state reached after
one admission has one transfer in flight, within the bound. -/
theorem C8_bounded_concurrency_witness :
    (⟨1, 1, 0⟩ : SchedState).running ≤ 1 :=
  (C8_bounded_concurrency 1 2 (le_refl 1)).1 ⟨1, 1, 0⟩
    (Relation.ReflTransGen.single
      (SchedStep.acquire ⟨2, 0, 0⟩ (by decide) (by decide)))

/-! ## Claim about the identifier resolver (C10) -/

/-- `extractHash` finds the first position where the album-link literal
is followed by at least one alphanumeric, and captures the maximal
alphanumeric run there. -/
theorem extractHash_at (j : Nat) :
    ∀ (s : List Char), matchesAt s j = true →
      (∀ i, i < j → matchesAt s i = false) →
      extractHash s =
        some (((s.drop j).drop sharedAlbumLit.length).takeWhile Char.isAlphanum) := by
  induction j with
  | zero =>
    intro s hm _
    unfold matchesAt at hm
    rw [List.drop_zero] at hm
    rw [List.drop_zero]
    rw [Bool.and_eq_true] at hm
    obtain ⟨h1, h2⟩ := hm
    cases s with
    | nil => exact Bool.noConfusion h1
    | cons c cs =>
      show (if sharedAlbumLit.isPrefixOf (c :: cs) = true then
        if ((c :: cs).drop sharedAlbumLit.length).takeWhile Char.isAlphanum ≠ []
        then some (((c :: cs).drop sharedAlbumLit.length).takeWhile Char.isAlphanum)
        else extractHash cs
        else extractHash cs) = _
      rw [if_pos h1]
      cases hr : (c :: cs).drop sharedAlbumLit.length with
      | nil =>
        rw [hr] at h2
        exact Bool.noConfusion h2
      | cons r rs =>
        rw [hr] at h2
        have h2r : r.isAlphanum = true := h2
        have htok : (r :: rs).takeWhile Char.isAlphanum ≠ [] := by
          rw [List.takeWhile_cons_of_pos h2r]
          simp
        rw [if_pos htok]
  | succ j ih =>
    intro s hm hlt
    cases s with
    | nil => simp [matchesAt] at hm
    | cons c cs =>
      have hm0 : matchesAt (c :: cs) 0 = false := hlt 0 (Nat.succ_pos j)
      have hm2 : matchesAt cs j = true := hm
      have hlt2 : ∀ i, i < j → matchesAt cs i = false := fun i hi =>
        hlt (i + 1) (Nat.succ_lt_succ hi)
      have ihres := ih cs hm2 hlt2
      show (if sharedAlbumLit.isPrefixOf (c :: cs) = true then
        if ((c :: cs).drop sharedAlbumLit.length).takeWhile Char.isAlphanum ≠ []
        then some (((c :: cs).drop sharedAlbumLit.length).takeWhile Char.isAlphanum)
        else extractHash cs
        else extractHash cs) = _
      by_cases h1 : sharedAlbumLit.isPrefixOf (c :: cs) = true
      · rw [if_pos h1]
        unfold matchesAt at hm0
        rw [List.drop_zero] at hm0
        rw [h1, Bool.true_and] at hm0
        have htok : ((c :: cs).drop sharedAlbumLit.length).takeWhile
            Char.isAlphanum = [] := by
          cases hr : (c :: cs).drop sharedAlbumLit.length with
          | nil => rfl
          | cons r rs =>
            rw [hr] at hm0
            have hrf : r.isAlphanum = false := hm0
            exact List.takeWhile_cons_of_neg
              (by rw [hrf]; exact Bool.false_ne_true)
        rw [if_neg (fun hcon => hcon htok)]
        exact ihres
      · rw [if_neg h1]
        exact ihres

/-- C10: for every input containing `icloud.com/sharedalbum/#` followed
by at least one ASCII letter or digit, the resolver succeeds and
returns the maximal run of ASCII letters and digits immediately
following the first such occurrence (position `j` below is the first
matching offset); characters after that run silently truncate the
token, e.g. `#abc-def` yields `abc`. -/
theorem C10_resolver_leftmost_token :
    (∀ (url : String) (j : Nat), matchesAt url.toList j = true →
      (∀ i, i < j → matchesAt url.toList i = false) →
      extract_hash_from_url url = .ok (String.mk
        (((url.toList.drop j).drop sharedAlbumLit.length).takeWhile Char.isAlphanum)))
    ∧ extract_hash_from_url "https://www.icloud.com/sharedalbum/#abc-def" = .ok "abc" := by
  refine ⟨?_, by decide⟩
  intro url j hm hlt
  unfold extract_hash_from_url
  rw [extractHash_at j url.toList hm hlt]

/-- Witness for C10 at a link whose match is at offset 0. -/
theorem C10_resolver_leftmost_token_witness :
    extract_hash_from_url "icloud.com/sharedalbum/#B2T" = .ok (String.mk
      ((("icloud.com/sharedalbum/#B2T".toList.drop 0).drop
        sharedAlbumLit.length).takeWhile Char.isAlphanum)) :=
  C10_resolver_leftmost_token.1 "icloud.com/sharedalbum/#B2T" 0 (by decide)
    (fun i hi => absurd hi (Nat.not_lt_zero i))
